import Mathlib

/-!
Verification of the nutriTrack client-side synchronization and migration
logic, shallowly embedded from the TypeScript source.

Sources embedded here:
- `src/services/firestoreService.ts` (first variant, the one the claim line
  numbers point at): `getLogEntries`, `addLogEntry`, `deleteLogEntry`,
  `normalizeTimestamp` and the per-document normalization used by both
  `getLogEntries` and `subscribeToLogEntries`.
- `src/App.tsx`: `migrateLocalToFirestore`, `migrateAnonFirestoreToUid`,
  `handleRemoveFood`, and the day-view filter.
- `src/utils/dateUtils.ts` (recovered as `src/unnamed/part_000`):
  `isSameDay`, via the Gregorian civil-date getters of the JS `Date` class.

Modelling conventions:
- JS numbers that the program treats as integers (epoch milliseconds and
  macro quantities) are `Int`.
- The browser `localStorage` is an association list from string keys to
  parsed values: a value at a `foodLog-` key is either a well-formed
  serialized record array (`LocalVal.items`) or data whose `JSON.parse`
  (or subsequent iteration) throws (`LocalVal.malformed`); plain string
  markers such as `pendingAnonUid` are `LocalVal.str`.
- The remote store is an append-ordered list of `(uid, document)` pairs
  plus a counter generating fresh document ids, mirroring `addDoc`.
- Remote reads are modelled as succeeding (the source degrades a failed
  read to `[]` via `.catch`); remote `addDoc` failures are modelled by an
  environment oracle `failAt : Nat -> Bool` indexed by the number of
  append calls made so far, and a failing append raises, which the
  embedded control flow propagates exactly as the TS `try`/`catch` nesting
  does.
- `Date.now()` is a parameter `now : Int`, held fixed across one routine.
- The JS `Date` getters are modelled in UTC (timezone offset zero).
-/

namespace NutriTrack

/-- `FoodItem` from `src/types.ts` as it occurs in local buckets and the
working list; `timestamp` is optional because local records may lack a
numeric timestamp (the code tests `typeof ts === number`). -/
structure FoodItem where
  id : String
  name : String
  calories : Int
  protein : Int
  carbs : Int
  fat : Int
  portion : String
  timestamp : Option Int
deriving DecidableEq

/-- `LogEntryData` from `src/services/firestoreService.ts`: the adapter
input, with the optional fields the TS type declares. -/
structure LogEntryData where
  name : String
  calories : Option Int
  protein : Option Int
  carbs : Option Int
  fat : Option Int
  portion : Option String
  timestamp : Option Int
deriving DecidableEq

/-- `LogEntry` from `src/services/firestoreService.ts`: a normalized
remote document together with its generated id. -/
structure LogEntry where
  id : String
  name : String
  calories : Int
  protein : Int
  carbs : Int
  fat : Int
  portion : String
  timestamp : Int
deriving DecidableEq

/-- A parsed `localStorage` value (see the module header). -/
inductive LocalVal where
  | items (l : List FoodItem)
  | str (s : String)
  | malformed
deriving DecidableEq

/-- The browser `localStorage`: keys are unique in the real store; the
operations below are written so the results do not depend on that. -/
abbrev LocalStore := List (String × LocalVal)

/-- `localStorage.getItem`. -/
def getItem (k : String) : LocalStore → Option LocalVal
  | [] => none
  | p :: rest => if p.1 = k then some p.2 else getItem k rest

/-- `localStorage.setItem`: replace the binding if present, else append. -/
def setItem (k : String) (v : LocalVal) (ls : LocalStore) : LocalStore :=
  if ls.any (fun p => p.1 == k) then
    ls.map (fun p => if p.1 == k then (k, v) else p)
  else ls ++ [(k, v)]

/-- `localStorage.removeItem`. -/
def removeItem (k : String) (ls : LocalStore) : LocalStore :=
  ls.filter (fun p => p.1 != k)

/-- `key.startsWith(s)` via the character lists (kernel-reducible). -/
def strStartsWith (s p : String) : Bool :=
  p.data.isPrefixOf s.data

/-- The remote document store: `logs` is the append-ordered list of
`(uid, document)` pairs across all user collections; `nextId` feeds the
`addDoc` id generator. -/
structure RemoteStore where
  logs : List (String × LogEntry)
  nextId : Nat
deriving DecidableEq

/-- Model of the Firestore auto-generated document id. -/
def genId (n : Nat) : String := "doc" ++ toString n

/-- Insertion step for the `orderBy(timestamp, desc)` read order. -/
def sortInsertTsDesc (e : LogEntry) : List LogEntry → List LogEntry
  | [] => [e]
  | x :: xs => if e.timestamp ≤ x.timestamp then x :: sortInsertTsDesc e xs
               else e :: x :: xs

/-- `orderBy(timestamp, desc)` on a list of documents. -/
def sortByTsDesc : List LogEntry → List LogEntry
  | [] => []
  | x :: xs => sortInsertTsDesc x (sortByTsDesc xs)

/-- `getLogEntries(userId)` (`firestoreService.ts` lines 70-88): all
documents of the collection `users/userId/logs`, ordered by `timestamp`
descending. Documents in `RemoteStore` are kept already normalized
because every write in this development goes through `addLogEntry`; the
normalization of raw documents is modelled separately below. -/
def getLogEntries (uid : String) (rs : RemoteStore) : List LogEntry :=
  sortByTsDesc ((rs.logs.filter (fun p => p.1 == uid)).map Prod.snd)

/-- `addLogEntry(userId, entryData)` (`firestoreService.ts` lines
109-125). `ensureUserDoc` only touches the per-user profile document,
which is outside the modelled state, and never throws. The payload
normalization: `String(name || "")` is the identity on strings,
`Number(x ?? 0)` keeps a present number and defaults a missing one to 0,
`portion || ""` defaults a missing portion, and the timestamp is kept
when it is a number, else `Date.now()`. -/
def addLogEntry (uid : String) (d : LogEntryData) (now : Int)
    (rs : RemoteStore) : LogEntry × RemoteStore :=
  let e : LogEntry :=
    { id := genId rs.nextId
      name := d.name
      calories := d.calories.getD 0
      protein := d.protein.getD 0
      carbs := d.carbs.getD 0
      fat := d.fat.getD 0
      portion := d.portion.getD ""
      timestamp := d.timestamp.getD now }
  (e, { logs := rs.logs ++ [(uid, e)], nextId := rs.nextId + 1 })

/-- `deleteLogEntry(userId, entryId)` (`firestoreService.ts` lines
130-133): delete the document at `users/userId/logs/entryId`. -/
def deleteLogEntry (uid entryId : String) (rs : RemoteStore) : RemoteStore :=
  { rs with logs := rs.logs.filter (fun p => !(p.1 == uid && p.2.id == entryId)) }

/-! ### Date utilities (`src/utils/dateUtils.ts`, `isSameDay`)

The JS `Date` getters `getFullYear`/`getMonth`/`getDate` are computed
from epoch milliseconds with the standard proleptic Gregorian civil-date
algorithm, at timezone offset zero. -/

/-- Whole days since the epoch for an epoch-millisecond value (floor). -/
def dayNumber (ms : Int) : Int := Int.fdiv ms 86400000

/-- Civil date `(year, month 1-12, day 1-31)` of a day number. -/
def civilFromDays (z0 : Int) : Int × Int × Int :=
  let z := z0 + 719468
  let era := Int.fdiv z 146097
  let doe := z - era * 146097
  let yoe := Int.fdiv (doe - Int.fdiv doe 1460 + Int.fdiv doe 36524 - Int.fdiv doe 146096) 365
  let y := yoe + era * 400
  let doy := doe - (365 * yoe + Int.fdiv yoe 4 - Int.fdiv yoe 100)
  let mp := Int.fdiv (5 * doy + 2) 153
  let d := doy - Int.fdiv (153 * mp + 2) 5 + 1
  let m := if mp < 10 then mp + 3 else mp - 9
  (if m ≤ 2 then y + 1 else y, m, d)

/-- `new Date(ms).getFullYear()`. -/
def getFullYear (ms : Int) : Int := (civilFromDays (dayNumber ms)).1

/-- `new Date(ms).getMonth()` (0-11 in JS). -/
def getMonth (ms : Int) : Int := (civilFromDays (dayNumber ms)).2.1 - 1

/-- `new Date(ms).getDate()`. -/
def getDate (ms : Int) : Int := (civilFromDays (dayNumber ms)).2.2

/-- `isSameDay(date1, date2)` from `dateUtils.ts`: equality of the
year, month and day getters. -/
def isSameDay (t1 t2 : Int) : Bool :=
  getFullYear t1 == getFullYear t2 &&
  getMonth t1 == getMonth t2 &&
  getDate t1 == getDate t2

/-! ### Read normalization (`firestoreService.ts` lines 60-88, 140-165)

A raw stored document may carry fields of unexpected shapes; this layer
models the value space relevant to `normalizeTimestamp` and the mapping
in `getLogEntries`/`subscribeToLogEntries` (both apply the identical
per-document conversion to every snapshot document). -/

/-- A raw stored `timestamp` field: absent, a JS number, a string, or a
store timestamp object exposing `toMillis()`. -/
inductive StoredVal where
  | missing
  | num (n : Int)
  | str (s : String)
  | tsObj (ms : Int)
deriving DecidableEq

/-- A raw stored document; the typed fields model present-or-absent
values of the expected type, the timestamp keeps its full shape. -/
structure StoredDoc where
  name : Option String
  calories : Option Int
  protein : Option Int
  carbs : Option Int
  fat : Option Int
  portion : Option String
  timestamp : StoredVal
deriving DecidableEq

/-- `normalizeTimestamp(val)` (`firestoreService.ts` lines 60-65):
a falsy value (absent, the number 0, the empty string) gives
`Date.now()`; a nonzero number is kept; an object with `toMillis` is
converted; any other value (a non-empty string) gives `Date.now()`. -/
def normalizeTimestamp (now : Int) : StoredVal → Int
  | .missing => now
  | .num n => if n = 0 then now else n
  | .str _ => now
  | .tsObj m => m

/-- The per-document mapping of `getLogEntries` (lines 75-87), identical
in `subscribeToLogEntries` (lines 145-157): `String(name || "")`,
`Number(field || 0)` (a present 0 is falsy, hence the branch), `portion
|| ""`, and `normalizeTimestamp` on the raw timestamp. -/
def normalizeDoc (now : Int) (docId : String) (d : StoredDoc) : LogEntry :=
  { id := docId
    name := match d.name with | some s => s | none => ""
    calories := match d.calories with | some n => if n = 0 then 0 else n | none => 0
    protein := match d.protein with | some n => if n = 0 then 0 else n | none => 0
    carbs := match d.carbs with | some n => if n = 0 then 0 else n | none => 0
    fat := match d.fat with | some n => if n = 0 then 0 else n | none => 0
    portion := match d.portion with | some s => s | none => ""
    timestamp := normalizeTimestamp now d.timestamp }

/-- The snapshot mapping shared by `getLogEntries` and
`subscribeToLogEntries`: normalize every `(docId, document)` pair. -/
def normalizeDocs (now : Int) (docs : List (String × StoredDoc)) : List LogEntry :=
  docs.map (fun p => normalizeDoc now p.1 p.2)

/-! ### Local to remote migration (`App.tsx` lines 67-113) -/

/-- `x || dflt` for an optional JS number: a present nonzero number is
kept, a present 0 or an absent value falls back. -/
def jsOr (o : Option Int) (dflt : Int) : Int :=
  match o with
  | some t => if t = 0 then dflt else t
  | none => dflt

/-- The dedup key built from a remote entry (`App.tsx` lines 74, 122,
124): the template string `name::timestamp-or-empty`, where a 0
timestamp renders as the empty string. -/
def keyOfRemote (e : LogEntry) : String :=
  e.name ++ "::" ++ (if e.timestamp = 0 then "" else toString e.timestamp)

/-- The dedup key built from a local record (`App.tsx` line 87), after
the timestamp default of line 86 has produced a number. -/
def localKeyHash (name : String) (ts : Int) : String :=
  name ++ "::" ++ toString ts

/-- Outcome of processing one local day bucket: the remote store and the
append-call counter after the bucket, the entries appended for it, and
whether the bucket body ran to completion (`ok = false` means an append
raised, which the TS `catch` on line 100 absorbs after abandoning the
rest of the bucket). -/
structure BucketResult where
  rs : RemoteStore
  cnt : Nat
  appended : List LogEntry
  ok : Bool
deriving DecidableEq

/-- The per-bucket loop of `migrateLocalToFirestore` (`App.tsx` lines
84-98): default the timestamp, skip keys already in the initial remote
snapshot set, otherwise append; a failing append aborts the bucket. -/
def processBucket (uid : String) (remoteSet : List String) (now : Int)
    (failAt : Nat → Bool) :
    List FoodItem → RemoteStore → Nat → BucketResult
  | [], rs, cnt => ⟨rs, cnt, [], true⟩
  | item :: rest, rs, cnt =>
    let ts := jsOr item.timestamp now
    let kh := localKeyHash item.name ts
    if remoteSet.contains kh then
      processBucket uid remoteSet now failAt rest rs cnt
    else if failAt cnt then ⟨rs, cnt + 1, [], false⟩
    else
      let r := addLogEntry uid
        ⟨item.name, some item.calories, some item.protein, some item.carbs,
         some item.fat, some item.portion, some ts⟩ now rs
      let b := processBucket uid remoteSet now failAt rest r.2 (cnt + 1)
      ⟨b.rs, b.cnt, r.1 :: b.appended, b.ok⟩

/-- Accumulated outcome of the key enumeration loop (`App.tsx` lines
79-103). -/
structure LoopResult where
  rs : RemoteStore
  cnt : Nat
  appended : List LogEntry
  keysToRemove : List String
deriving DecidableEq

/-- The `localStorage` key enumeration of `migrateLocalToFirestore`:
keys without the `foodLog-` prefix are skipped; a bucket whose stored
value does not parse as a record array is skipped by the `catch` (and
not marked for removal); a parsed bucket is processed and its key is
marked for removal only when the bucket body completed. -/
def migrateLoop (uid : String) (remoteSet : List String) (now : Int)
    (failAt : Nat → Bool) :
    LocalStore → RemoteStore → Nat → LoopResult
  | [], rs, cnt => ⟨rs, cnt, [], []⟩
  | (k, v) :: rest, rs, cnt =>
    if strStartsWith k "foodLog-" then
      match v with
      | .items l =>
        let b := processBucket uid remoteSet now failAt l rs cnt
        let r := migrateLoop uid remoteSet now failAt rest b.rs b.cnt
        ⟨r.rs, r.cnt, b.appended ++ r.appended,
         if b.ok then k :: r.keysToRemove else r.keysToRemove⟩
      | .str _ => migrateLoop uid remoteSet now failAt rest rs cnt
      | .malformed => migrateLoop uid remoteSet now failAt rest rs cnt
    else migrateLoop uid remoteSet now failAt rest rs cnt

/-- The observable outcome of one `migrateLocalToFirestore` call. -/
structure MigrateResult where
  remote : RemoteStore
  localStore : LocalStore
  watermark : Option String
  attempts : Nat
  appended : List LogEntry
  keysToRemove : List String
deriving DecidableEq

/-- `migrateLocalToFirestore(uid)` (`App.tsx` lines 67-113). `wm` is the
migration watermark `lastMigratedUid.current`; `attempts` counts the
`addLogEntry` calls made (the index fed to the failure oracle). After
the loop the marked keys are removed and the watermark is set; nothing
in the outer block can raise once the per-bucket `catch` has absorbed
append failures, so the watermark update always runs on this path. -/
def migrateLocalToFirestore (uid : String) (wm : Option String)
    (ls : LocalStore) (rs : RemoteStore) (now : Int)
    (failAt : Nat → Bool) : MigrateResult :=
  if uid = "" then ⟨rs, ls, wm, 0, [], []⟩
  else if wm = some uid then ⟨rs, ls, wm, 0, [], []⟩
  else
    let remoteSet := (getLogEntries uid rs).map keyOfRemote
    let r := migrateLoop uid remoteSet now failAt ls rs 0
    let ls2 := r.keysToRemove.foldl (fun s k => removeItem k s) ls
    ⟨r.rs, ls2, some uid, r.cnt, r.appended, r.keysToRemove⟩

/-! ### Anonymous to permanent migration (`App.tsx` lines 116-141) -/

/-- The entry loop of `migrateAnonFirestoreToUid` (`App.tsx` lines
123-135): skip entries whose remote key is already in the target set,
append the rest; a failing append raises into the outer `catch`, which
abandons the rest of the entries and skips the marker removal. -/
def anonLoop (newUid : String) (remoteSet : List String) (now : Int)
    (failAt : Nat → Bool) :
    List LogEntry → RemoteStore → Nat → BucketResult
  | [], rs, cnt => ⟨rs, cnt, [], true⟩
  | e :: rest, rs, cnt =>
    if remoteSet.contains (keyOfRemote e) then
      anonLoop newUid remoteSet now failAt rest rs cnt
    else if failAt cnt then ⟨rs, cnt + 1, [], false⟩
    else
      let r := addLogEntry newUid
        ⟨e.name, some e.calories, some e.protein, some e.carbs,
         some e.fat, some e.portion, some e.timestamp⟩ now rs
      let b := anonLoop newUid remoteSet now failAt rest r.2 (cnt + 1)
      ⟨b.rs, b.cnt, r.1 :: b.appended, b.ok⟩

/-- The observable outcome of one `migrateAnonFirestoreToUid` call. -/
structure AnonResult where
  remote : RemoteStore
  localStore : LocalStore
  attempts : Nat
  appended : List LogEntry
deriving DecidableEq

/-- `migrateAnonFirestoreToUid(anonUid, newUid)` (`App.tsx` lines
116-141). The guard of line 117, the empty-anon-log early return of
line 120 (which returns before the marker removal of line 137), the
dedup set built from the target log, the append loop, and the
`pendingAnonUid` removal that runs only when the loop completes. -/
def migrateAnonFirestoreToUid (anonUid newUid : String) (ls : LocalStore)
    (rs : RemoteStore) (now : Int) (failAt : Nat → Bool) : AnonResult :=
  if anonUid = "" ∨ newUid = "" ∨ anonUid = newUid then ⟨rs, ls, 0, []⟩
  else
    let anonEntries := getLogEntries anonUid rs
    if anonEntries.isEmpty then ⟨rs, ls, 0, []⟩
    else
      let remoteSet := (getLogEntries newUid rs).map keyOfRemote
      let r := anonLoop newUid remoteSet now failAt anonEntries rs 0
      if r.ok then ⟨r.rs, removeItem "pendingAnonUid" ls, r.cnt, r.appended⟩
      else ⟨r.rs, ls, r.cnt, r.appended⟩

/-! ### Remove operation and day filter (`App.tsx` lines 237-253,
324-328) -/

/-- The observable outcome of one `handleRemoveFood` call. -/
structure RemoveResult where
  foods : List FoodItem
  localStore : LocalStore
  remote : RemoteStore
deriving DecidableEq

/-- `handleRemoveFood(foodId)` (`App.tsx` lines 237-253): the optimistic
update filters the working list by id; with an active user the remote
document is deleted; with no user the same filtered list (computed from
the same `loggedFoods` value) is serialized to the `foodLog-` key of the
active day. -/
def handleRemoveFood (foods : List FoodItem) (foodId : String)
    (hasUser : Bool) (uid : String) (formattedDate : String)
    (ls : LocalStore) (rs : RemoteStore) : RemoveResult :=
  let updated := foods.filter (fun item => item.id != foodId)
  if hasUser then ⟨updated, ls, deleteLogEntry uid foodId rs⟩
  else ⟨updated, setItem ("foodLog-" ++ formattedDate) (LocalVal.items updated) ls, rs⟩

/-- The day-view filter predicate (`App.tsx` lines 324-328): a record
with a numeric timestamp is shown iff `isSameDay` holds against the
selected date; a record without one passes through. -/
def dayFilterPred (selectedDate : Int) (item : FoodItem) : Bool :=
  match item.timestamp with
  | some ts => isSameDay ts selectedDate
  | none => true

/-- The day-view filter of the calendar section. -/
def dayFilter (foods : List FoodItem) (selectedDate : Int) : List FoodItem :=
  foods.filter (dayFilterPred selectedDate)

/-! ### Concrete fixtures used by counterexamples and witnesses -/

/-- A local record with timestamp 1000. -/
def itemApple : FoodItem := ⟨"l1", "Apple", 95, 1, 25, 0, "1 apple", some 1000⟩

/-- A second local record with the same `(name, timestamp)` dedup pair
as `itemApple`, stored in a different day bucket. -/
def itemApple2 : FoodItem := ⟨"l9", "Apple", 95, 1, 25, 0, "1 apple", some 1000⟩

/-- An unrelated local record. -/
def itemBanana : FoodItem := ⟨"l2", "Banana", 105, 1, 27, 0, "1 banana", some 2000⟩

/-- An empty remote store. -/
def rsEmpty : RemoteStore := ⟨[], 0⟩

/-- The environment in which every append succeeds. -/
def noFail : Nat → Bool := fun _ => false

/-- The environment in which exactly the first append call fails. -/
def failFirst : Nat → Bool := fun n => n == 0

/-- Two day buckets holding records with an equal dedup pair. -/
def lsDupBuckets : LocalStore :=
  [("foodLog-2024-01-01", .items [itemApple]),
   ("foodLog-2024-01-02", .items [itemApple2])]

/-- One day bucket with two records. -/
def lsOneBucket : LocalStore :=
  [("foodLog-2024-01-01", .items [itemApple, itemBanana])]

/-- The anonymous log entry of the merge example. -/
def entryAppleA : LogEntry := ⟨"a1", "Apple", 95, 1, 25, 0, "1 apple", 1000⟩

/-- The already-present target log entry of the merge example. -/
def entryAppleB : LogEntry := ⟨"b1", "Apple", 95, 1, 25, 0, "1 apple", 1000⟩

/-- Remote store for the merge example: uid `A` and uid `B` each hold
one record with the pair `(Apple, 1000)`. -/
def rsAnon : RemoteStore := ⟨[("A", entryAppleA), ("B", entryAppleB)], 2⟩

/-- A local store holding only the pending anonymous marker. -/
def lsMarker : LocalStore := [("pendingAnonUid", .str "A")]

/-- A local store holding the goal object, the pending marker and one
day bucket. -/
def lsMixed : LocalStore :=
  [("macroGoals", .str "goals"), ("pendingAnonUid", .str "A"),
   ("foodLog-2024-01-01", .items [itemApple])]

/-- The first entry the migration of `lsDupBuckets` appends. -/
def entryDoc0 : LogEntry := ⟨"doc0", "Apple", 95, 1, 25, 0, "1 apple", 1000⟩

/-- A raw document whose timestamp is a store timestamp object. -/
def docTea : StoredDoc := ⟨some "Tea", some 1, none, none, none, some "1 cup", .tsObj 5000⟩

/-- A raw document whose timestamp is a plain nonzero number. -/
def docOats : StoredDoc := ⟨some "Oats", some 150, some 5, some 27, some 3, some "40g", .num 4000⟩

/-! ### Local store lemmas -/

/-- Removing one key leaves lookups of any other key unchanged. -/
theorem getItem_removeItem_ne {k kk : String} (h : k ≠ kk) :
    ∀ ls : LocalStore, getItem k (removeItem kk ls) = getItem k ls := by
  intro ls
  induction ls with
  | nil => rfl
  | cons p rest ih =>
    rw [removeItem] at ih ⊢
    rw [List.filter_cons]
    by_cases hp : p.1 = kk
    · have hb : ¬ ((p.1 != kk) = true) := by simp [hp]
      rw [if_neg hb]
      have hk1 : ¬ p.1 = k := by rw [hp]; exact fun e => h e.symm
      conv_rhs => rw [getItem]
      rw [if_neg hk1]
      exact ih
    · have hb : (p.1 != kk) = true := by simp [bne_iff_ne]; exact hp
      rw [if_pos hb]
      rw [getItem, getItem]
      by_cases hk : p.1 = k
      · rw [if_pos hk, if_pos hk]
      · rw [if_neg hk, if_neg hk]
        exact ih

/-- Removing a list of keys not containing `k` leaves the lookup of `k`
unchanged. -/
theorem getItem_foldl_removeItem {k : String} :
    ∀ (keys : List String) (ls : LocalStore), k ∉ keys →
      getItem k (keys.foldl (fun s kk => removeItem kk s) ls) = getItem k ls := by
  intro keys
  induction keys with
  | nil => intro ls _; rfl
  | cons kk keys ih =>
    intro ls h
    have hne : k ≠ kk := fun e => h (e ▸ List.mem_cons_self kk keys)
    have h2 : k ∉ keys := fun hm => h (List.mem_cons_of_mem kk hm)
    rw [List.foldl_cons, ih _ h2, getItem_removeItem_ne hne]

/-- A lookup skips a block of pairs whose keys all differ from `k`. -/
theorem getItem_append_left_notmem {k : String} :
    ∀ (pre rest : LocalStore), k ∉ pre.map Prod.fst →
      getItem k (pre ++ rest) = getItem k rest := by
  intro pre
  induction pre with
  | nil => intro rest _; rfl
  | cons p pre ih =>
    intro rest h
    rw [List.map_cons] at h
    have hp : ¬ p.1 = k := fun e => h (e ▸ List.mem_cons_self p.1 _)
    have h2 : k ∉ pre.map Prod.fst := fun hm => h (List.mem_cons_of_mem _ hm)
    rw [List.cons_append, getItem, if_neg hp, ih _ h2]

/-- A store with no binding for `k` looks up to `none`. -/
theorem getItem_of_any_eq_false {k : String} :
    ∀ ls : LocalStore, ls.any (fun p => p.1 == k) = false →
      getItem k ls = none := by
  intro ls
  induction ls with
  | nil => intro _; rfl
  | cons p rest ih =>
    intro h
    rw [List.any_cons, Bool.or_eq_false_iff] at h
    have hp : ¬ p.1 = k := by
      intro e
      rw [e] at h
      simp at h
    rw [getItem, if_neg hp]
    exact ih h.2

/-- Replacing the binding of `k` in place makes `k` look up to the new
value, provided some binding for `k` is present. -/
theorem getItem_map_replace {k : String} (v : LocalVal) :
    ∀ ls : LocalStore, ls.any (fun p => p.1 == k) = true →
      getItem k (ls.map (fun p => if p.1 == k then (k, v) else p)) = some v := by
  intro ls
  induction ls with
  | nil => intro h; simp at h
  | cons p rest ih =>
    intro h
    by_cases hp : p.1 = k
    · have hb : (p.1 == k) = true := by simp [hp]
      simp only [List.map_cons, hb, if_true]
      rw [getItem, if_pos rfl]
    · have hb : (p.1 == k) = false := by simp [hp]
      simp only [List.map_cons, hb, Bool.false_eq_true, if_false]
      rw [getItem, if_neg hp]
      rw [List.any_cons, hb, Bool.false_or] at h
      exact ih h

/-- After `setItem k v`, looking up `k` yields `v`. -/
theorem getItem_setItem_self (k : String) (v : LocalVal) :
    ∀ ls : LocalStore, getItem k (setItem k v ls) = some v := by
  intro ls
  rw [setItem]
  by_cases hany : ls.any (fun p => p.1 == k) = true
  · rw [if_pos hany]
    exact getItem_map_replace v ls hany
  · rw [if_neg hany]
    have hnm : k ∉ ls.map Prod.fst := by
      intro hm
      rcases List.mem_map.mp hm with ⟨p, hpmem, hpk⟩
      exact hany (List.any_eq_true.mpr ⟨p, hpmem, by simp [hpk]⟩)
    rw [getItem_append_left_notmem _ _ hnm, getItem, if_pos rfl]

/-! ### Migration loop lemmas -/

/-- Every key the migration loop marks for removal carries the
`foodLog-` prefix. -/
theorem migrateLoop_keys_prefixed (uid : String) (S : List String) (now : Int)
    (f : Nat → Bool) :
    ∀ (ls : LocalStore) (rs : RemoteStore) (cnt : Nat) (k : String),
      k ∈ (migrateLoop uid S now f ls rs cnt).keysToRemove →
      strStartsWith k "foodLog-" = true := by
  intro ls
  induction ls with
  | nil =>
    intro rs cnt k hk
    simp [migrateLoop] at hk
  | cons p rest ih =>
    intro rs cnt k hk
    obtain ⟨kk, v⟩ := p
    by_cases hs : strStartsWith kk "foodLog-" = true
    · cases v with
      | items l =>
        simp only [migrateLoop, hs, if_true] at hk
        split at hk
        · rcases List.mem_cons.mp hk with h1 | h2
          · rw [h1]; exact hs
          · exact ih _ _ _ h2
        · exact ih _ _ _ hk
      | str s =>
        simp only [migrateLoop, hs, if_true] at hk
        exact ih _ _ _ hk
      | malformed =>
        simp only [migrateLoop, hs, if_true] at hk
        exact ih _ _ _ hk
    · simp only [migrateLoop] at hk
      rw [if_neg hs] at hk
      exact ih _ _ _ hk

/-- Every key the migration loop marks for removal is a key of the
enumerated store. -/
theorem migrateLoop_keys_subset (uid : String) (S : List String) (now : Int)
    (f : Nat → Bool) :
    ∀ (ls : LocalStore) (rs : RemoteStore) (cnt : Nat) (k : String),
      k ∈ (migrateLoop uid S now f ls rs cnt).keysToRemove →
      k ∈ ls.map Prod.fst := by
  intro ls
  induction ls with
  | nil =>
    intro rs cnt k hk
    simp [migrateLoop] at hk
  | cons p rest ih =>
    intro rs cnt k hk
    obtain ⟨kk, v⟩ := p
    rw [List.map_cons]
    by_cases hs : strStartsWith kk "foodLog-" = true
    · cases v with
      | items l =>
        simp only [migrateLoop, hs, if_true] at hk
        split at hk
        · rcases List.mem_cons.mp hk with h1 | h2
          · rw [h1]; exact List.mem_cons_self _ _
          · exact List.mem_cons_of_mem _ (ih _ _ _ h2)
        · exact List.mem_cons_of_mem _ (ih _ _ _ hk)
      | str s =>
        simp only [migrateLoop, hs, if_true] at hk
        exact List.mem_cons_of_mem _ (ih _ _ _ hk)
      | malformed =>
        simp only [migrateLoop, hs, if_true] at hk
        exact List.mem_cons_of_mem _ (ih _ _ _ hk)
    · simp only [migrateLoop] at hk
      rw [if_neg hs] at hk
      exact List.mem_cons_of_mem _ (ih _ _ _ hk)

/-- Every entry a bucket appends passed the dedup guard: its key hash is
not in the initial remote snapshot set. -/
theorem processBucket_appended_notin (uid : String) (S : List String)
    (now : Int) (f : Nat → Bool) :
    ∀ (l : List FoodItem) (rs : RemoteStore) (cnt : Nat) (e : LogEntry),
      e ∈ (processBucket uid S now f l rs cnt).appended →
      S.contains (localKeyHash e.name e.timestamp) = false := by
  intro l
  induction l with
  | nil =>
    intro rs cnt e he
    simp [processBucket] at he
  | cons item rest ih =>
    intro rs cnt e he
    simp only [processBucket] at he
    by_cases hc : S.contains (localKeyHash item.name (jsOr item.timestamp now)) = true
    · rw [if_pos hc] at he
      exact ih _ _ _ he
    · rw [if_neg hc] at he
      rw [Bool.not_eq_true] at hc
      by_cases hf : f cnt = true
      · rw [if_pos hf] at he
        simp at he
      · rw [if_neg hf] at he
        rcases List.mem_cons.mp he with h1 | h2
        · rw [h1]
          simp only [addLogEntry, Option.getD]
          exact hc
        · exact ih _ _ _ h2

/-- Every entry the migration loop appends passed the dedup guard. -/
theorem migrateLoop_appended_notin (uid : String) (S : List String)
    (now : Int) (f : Nat → Bool) :
    ∀ (ls : LocalStore) (rs : RemoteStore) (cnt : Nat) (e : LogEntry),
      e ∈ (migrateLoop uid S now f ls rs cnt).appended →
      S.contains (localKeyHash e.name e.timestamp) = false := by
  intro ls
  induction ls with
  | nil =>
    intro rs cnt e he
    simp [migrateLoop] at he
  | cons p rest ih =>
    intro rs cnt e he
    obtain ⟨kk, v⟩ := p
    by_cases hs : strStartsWith kk "foodLog-" = true
    · cases v with
      | items l =>
        simp only [migrateLoop, hs, if_true] at he
        rcases List.mem_append.mp he with h1 | h2
        · exact processBucket_appended_notin uid S now f _ _ _ _ h1
        · exact ih _ _ _ h2
      | str s =>
        simp only [migrateLoop, hs, if_true] at he
        exact ih _ _ _ he
      | malformed =>
        simp only [migrateLoop, hs, if_true] at he
        exact ih _ _ _ he
    · simp only [migrateLoop] at he
      rw [if_neg hs] at he
      exact ih _ _ _ he

/-- The migration loop splits over a concatenation of the key list: the
second block runs with the remote store and the counter produced by the
first, and the appended entries and marked keys concatenate. -/
theorem migrateLoop_append (uid : String) (S : List String) (now : Int)
    (f : Nat → Bool) :
    ∀ (xs ys : LocalStore) (rs : RemoteStore) (cnt : Nat),
      migrateLoop uid S now f (xs ++ ys) rs cnt =
        { rs := (migrateLoop uid S now f ys (migrateLoop uid S now f xs rs cnt).rs
                  (migrateLoop uid S now f xs rs cnt).cnt).rs
          cnt := (migrateLoop uid S now f ys (migrateLoop uid S now f xs rs cnt).rs
                  (migrateLoop uid S now f xs rs cnt).cnt).cnt
          appended := (migrateLoop uid S now f xs rs cnt).appended ++
                  (migrateLoop uid S now f ys (migrateLoop uid S now f xs rs cnt).rs
                    (migrateLoop uid S now f xs rs cnt).cnt).appended
          keysToRemove := (migrateLoop uid S now f xs rs cnt).keysToRemove ++
                  (migrateLoop uid S now f ys (migrateLoop uid S now f xs rs cnt).rs
                    (migrateLoop uid S now f xs rs cnt).cnt).keysToRemove } := by
  intro xs
  induction xs with
  | nil =>
    intro ys rs cnt
    simp [migrateLoop]
  | cons p rest ih =>
    intro ys rs cnt
    obtain ⟨kk, v⟩ := p
    by_cases hs : strStartsWith kk "foodLog-" = true
    · cases v with
      | items l =>
        simp only [List.cons_append, migrateLoop, hs, if_true, List.append_eq, ih]
        by_cases hb : (processBucket uid S now f l rs cnt).ok = true <;>
          simp [hb, List.append_assoc]
      | str s =>
        simp only [List.cons_append, migrateLoop, hs, if_true, List.append_eq, ih]
      | malformed =>
        simp only [List.cons_append, migrateLoop, hs, if_true, List.append_eq, ih]
    · have hs' : strStartsWith kk "foodLog-" = false := by
        rwa [Bool.not_eq_true] at hs
      simp only [List.cons_append, migrateLoop, hs', Bool.false_eq_true, if_false,
        List.append_eq, ih]

/-! ### Claim C1 -/

/-- C1 counterexample. The claim states that after `migrateLocalToFirestore`
completes, no two records of one owner share a `(name, timestamp)` pair,
and in particular that equal pairs in two different local day buckets do
not both get appended. On the store `lsDupBuckets` (two day buckets, each
holding a record with the pair `(Apple, 1000)`) and an empty remote log,
the completed migration leaves owner `u1` with two distinct records
(`doc1`, `doc0`) carrying that same pair: the remote dedup set is built
once from the initial snapshot and is never extended during the loop. -/
theorem migrate_dup_across_buckets_cex :
    (((getLogEntries "u1"
          (migrateLocalToFirestore "u1" none lsDupBuckets rsEmpty 777 noFail).remote).filter
        (fun e => e.name == "Apple" && e.timestamp == 1000)).map LogEntry.id =
      ["doc1", "doc0"]) ∧
    (migrateLocalToFirestore "u1" none lsDupBuckets rsEmpty 777 noFail).watermark =
      some "u1" := by
  decide

/-- C1 amended: every record appended by `migrateLocalToFirestore` has a
dedup key hash absent from the key set of the initial remote snapshot
(the dedup guard holds against the snapshot only; records of different
local buckets with equal keys may still both be appended, as the
counterexample shows). -/
theorem migrate_appended_not_in_initial_remote (uid : String)
    (wm : Option String) (ls : LocalStore) (rs : RemoteStore) (now : Int)
    (failAt : Nat → Bool) (e : LogEntry)
    (he : e ∈ (migrateLocalToFirestore uid wm ls rs now failAt).appended) :
    ((getLogEntries uid rs).map keyOfRemote).contains
      (localKeyHash e.name e.timestamp) = false := by
  by_cases h1 : uid = ""
  · simp [migrateLocalToFirestore, h1] at he
  · by_cases h2 : wm = some uid
    · simp [migrateLocalToFirestore, h1, h2] at he
    · simp only [migrateLocalToFirestore] at he
      rw [if_neg h1, if_neg h2] at he
      exact migrateLoop_appended_notin uid _ now failAt ls rs 0 e he

/-- Witness for the C1 amended theorem at the counterexample input. -/
theorem migrate_appended_not_in_initial_remote_witness :
    (entryDoc0 ∈ (migrateLocalToFirestore "u1" none lsDupBuckets rsEmpty 777 noFail).appended) ∧
    ((getLogEntries "u1" rsEmpty).map keyOfRemote).contains
      (localKeyHash entryDoc0.name entryDoc0.timestamp) = false :=
  ⟨by decide,
   migrate_appended_not_in_initial_remote "u1" none lsDupBuckets rsEmpty 777 noFail
     entryDoc0 (by decide)⟩

/-! ### Claim C2 -/

/-- C2 counterexample. The claim states that in a bucket where some
append fails, every remaining record is still attempted and the bucket
key is still removed. On `lsOneBucket` (one bucket with two records,
neither present remotely) with the first append failing: only one append
call is made (the second record is never attempted), nothing is marked
for removal, the bucket survives in the local store and nothing was
appended. -/
theorem migrate_failed_append_bucket_kept_cex :
    (migrateLocalToFirestore "u1" none lsOneBucket rsEmpty 777 failFirst).attempts = 1 ∧
    (migrateLocalToFirestore "u1" none lsOneBucket rsEmpty 777 failFirst).keysToRemove = [] ∧
    getItem "foodLog-2024-01-01"
        (migrateLocalToFirestore "u1" none lsOneBucket rsEmpty 777 failFirst).localStore =
      some (LocalVal.items [itemApple, itemBanana]) ∧
    (migrateLocalToFirestore "u1" none lsOneBucket rsEmpty 777 failFirst).appended = [] := by
  decide

/-- C2 amended: a failing append aborts its bucket — the record that hit
the failure consumes one append attempt and nothing after it in the
bucket is attempted — and a bucket whose processing did not complete is
not marked for removal: its key keeps its original value in the local
store after migration. -/
theorem migrate_failed_append_bucket_kept :
    (∀ (uid : String) (S : List String) (now : Int) (failAt : Nat → Bool)
        (item : FoodItem) (rest : List FoodItem) (rs : RemoteStore) (cnt : Nat),
        S.contains (localKeyHash item.name (jsOr item.timestamp now)) = false →
        failAt cnt = true →
        processBucket uid S now failAt (item :: rest) rs cnt = ⟨rs, cnt + 1, [], false⟩) ∧
    (∀ (uid : String) (wm : Option String) (rs : RemoteStore) (now : Int)
        (failAt : Nat → Bool) (pre post : LocalStore) (k : String) (l : List FoodItem),
        uid ≠ "" → wm ≠ some uid →
        k ∉ pre.map Prod.fst → k ∉ post.map Prod.fst →
        (processBucket uid ((getLogEntries uid rs).map keyOfRemote) now failAt l
            (migrateLoop uid ((getLogEntries uid rs).map keyOfRemote) now failAt pre rs 0).rs
            (migrateLoop uid ((getLogEntries uid rs).map keyOfRemote) now failAt pre rs 0).cnt).ok
          = false →
        k ∉ (migrateLocalToFirestore uid wm (pre ++ (k, LocalVal.items l) :: post)
              rs now failAt).keysToRemove ∧
        getItem k (migrateLocalToFirestore uid wm (pre ++ (k, LocalVal.items l) :: post)
              rs now failAt).localStore = some (LocalVal.items l)) := by
  constructor
  · intro uid S now failAt item rest rs cnt hc hf
    have hc' : ¬ (S.contains (localKeyHash item.name (jsOr item.timestamp now)) = true) :=
      fun h => Bool.false_ne_true (hc ▸ h)
    simp only [processBucket]
    rw [if_neg hc', if_pos hf]
  · intro uid wm rs now failAt pre post k l h1 h2 hpre hpost hok
    have hknotin : k ∉ (migrateLoop uid ((getLogEntries uid rs).map keyOfRemote) now failAt
        (pre ++ (k, LocalVal.items l) :: post) rs 0).keysToRemove := by
      rw [migrateLoop_append]
      intro hmem
      rcases List.mem_append.mp hmem with hm1 | hm2
      · exact hpre (migrateLoop_keys_subset _ _ _ _ _ _ _ _ hm1)
      · by_cases hk : strStartsWith k "foodLog-" = true
        · simp only [migrateLoop, hk, if_true] at hm2
          rw [if_neg (by rw [hok]; exact Bool.false_ne_true)] at hm2
          exact hpost (migrateLoop_keys_subset _ _ _ _ _ _ _ _ hm2)
        · simp only [migrateLoop] at hm2
          rw [if_neg hk] at hm2
          exact hpost (migrateLoop_keys_subset _ _ _ _ _ _ _ _ hm2)
    have hgi : getItem k (pre ++ (k, LocalVal.items l) :: post) = some (LocalVal.items l) := by
      rw [getItem_append_left_notmem _ _ hpre, getItem, if_pos rfl]
    constructor
    · intro hmem
      apply hknotin
      simp only [migrateLocalToFirestore] at hmem
      rw [if_neg h1, if_neg h2] at hmem
      exact hmem
    · simp only [migrateLocalToFirestore]
      rw [if_neg h1, if_neg h2]
      show getItem k (List.foldl _ (pre ++ (k, LocalVal.items l) :: post) _) = _
      rw [getItem_foldl_removeItem _ _ hknotin, hgi]

/-- Witness for the C2 amended theorem at the counterexample input. -/
theorem migrate_failed_append_bucket_kept_witness :
    (processBucket "u1" [] 777 failFirst [itemApple, itemBanana] rsEmpty 0 =
      ⟨rsEmpty, 1, [], false⟩) ∧
    ("foodLog-2024-01-01" ∉
        (migrateLocalToFirestore "u1" none lsOneBucket rsEmpty 777 failFirst).keysToRemove ∧
      getItem "foodLog-2024-01-01"
          (migrateLocalToFirestore "u1" none lsOneBucket rsEmpty 777 failFirst).localStore =
        some (LocalVal.items [itemApple, itemBanana])) :=
  ⟨migrate_failed_append_bucket_kept.1 "u1" [] 777 failFirst itemApple [itemBanana]
     rsEmpty 0 (by decide) (by decide),
   migrate_failed_append_bucket_kept.2 "u1" none rsEmpty 777 failFirst [] []
     "foodLog-2024-01-01" [itemApple, itemBanana]
     (by decide) (by decide) (by decide) (by decide) (by decide)⟩

/-! ### Claim C3 -/

/-- C3, confirmed: whatever the first `migrateLocalToFirestore` call for
`uid` did, a second call for the same `uid` against the resulting
watermark, local store and remote store makes no append calls, appends
nothing, and leaves both stores unchanged: the watermark set by the
first pass short-circuits the second. -/
theorem migrate_second_pass_no_appends (uid : String) (wm : Option String)
    (ls : LocalStore) (rs : RemoteStore) (now : Int) (failAt : Nat → Bool)
    (now2 : Int) (failAt2 : Nat → Bool) :
    (migrateLocalToFirestore uid
        (migrateLocalToFirestore uid wm ls rs now failAt).watermark
        (migrateLocalToFirestore uid wm ls rs now failAt).localStore
        (migrateLocalToFirestore uid wm ls rs now failAt).remote
        now2 failAt2).attempts = 0 ∧
    (migrateLocalToFirestore uid
        (migrateLocalToFirestore uid wm ls rs now failAt).watermark
        (migrateLocalToFirestore uid wm ls rs now failAt).localStore
        (migrateLocalToFirestore uid wm ls rs now failAt).remote
        now2 failAt2).appended = [] ∧
    (migrateLocalToFirestore uid
        (migrateLocalToFirestore uid wm ls rs now failAt).watermark
        (migrateLocalToFirestore uid wm ls rs now failAt).localStore
        (migrateLocalToFirestore uid wm ls rs now failAt).remote
        now2 failAt2).remote =
      (migrateLocalToFirestore uid wm ls rs now failAt).remote ∧
    (migrateLocalToFirestore uid
        (migrateLocalToFirestore uid wm ls rs now failAt).watermark
        (migrateLocalToFirestore uid wm ls rs now failAt).localStore
        (migrateLocalToFirestore uid wm ls rs now failAt).remote
        now2 failAt2).localStore =
      (migrateLocalToFirestore uid wm ls rs now failAt).localStore := by
  by_cases h1 : uid = ""
  · simp [migrateLocalToFirestore, h1]
  · by_cases h2 : wm = some uid
    · simp [migrateLocalToFirestore, h1, h2]
    · simp [migrateLocalToFirestore, h1, h2]

/-! ### Claim C4 -/

/-- C4 counterexample. The claim states that when `listAll(A)` is empty
the routine clears the pending marker and returns. With an empty remote
log for `A` and the marker present, the routine indeed appends nothing,
but the marker is still present afterwards: the early return on the
empty anonymous log fires before the `removeItem` call for
`pendingAnonUid` is reached. -/
theorem migrateAnon_empty_marker_kept_cex :
    getItem "pendingAnonUid"
        (migrateAnonFirestoreToUid "A" "B" lsMarker rsEmpty 777 noFail).localStore =
      some (LocalVal.str "A") ∧
    (migrateAnonFirestoreToUid "A" "B" lsMarker rsEmpty 777 noFail).attempts = 0 := by
  decide

/-- C4 amended: for every anonymous uid whose log is empty, the routine
returns without reading the permanent log or appending anything, and the
whole state — the Pending Anonymous Identifier marker included — is left
exactly as it was (the marker is not cleared). -/
theorem migrateAnon_empty_noop (anonUid newUid : String) (ls : LocalStore)
    (rs : RemoteStore) (now : Int) (failAt : Nat → Bool)
    (h : getLogEntries anonUid rs = []) :
    migrateAnonFirestoreToUid anonUid newUid ls rs now failAt = ⟨rs, ls, 0, []⟩ := by
  rw [migrateAnonFirestoreToUid]
  by_cases hg : anonUid = "" ∨ newUid = "" ∨ anonUid = newUid
  · rw [if_pos hg]
  · rw [if_neg hg]
    simp [h, List.isEmpty]

/-- Witness for the C4 amended theorem at the counterexample input. -/
theorem migrateAnon_empty_noop_witness :
    getLogEntries "A" rsEmpty = [] ∧
    migrateAnonFirestoreToUid "A" "B" lsMarker rsEmpty 777 noFail =
      ⟨rsEmpty, lsMarker, 0, []⟩ :=
  ⟨by decide, migrateAnon_empty_noop "A" "B" lsMarker rsEmpty 777 noFail (by decide)⟩

/-! ### Claim C5 -/

/-- C5, confirmed: with anonymous log `A = [(Apple, 1000)]` and
permanent log `B` already holding a record with the pair
`(Apple, 1000)`, running the anonymous merge for `A` into `B` leaves the
record count of `B` unchanged, performs no append call, and clears the
`pendingAnonUid` marker. -/
theorem anon_merge_duplicate_skipped_example :
    (getLogEntries "B"
        (migrateAnonFirestoreToUid "A" "B" lsMarker rsAnon 777 noFail).remote).length =
      (getLogEntries "B" rsAnon).length ∧
    (migrateAnonFirestoreToUid "A" "B" lsMarker rsAnon 777 noFail).attempts = 0 ∧
    getItem "pendingAnonUid"
        (migrateAnonFirestoreToUid "A" "B" lsMarker rsAnon 777 noFail).localStore = none := by
  decide

/-! ### Claim C6 -/

/-- C6, confirmed: the day-view filter keeps the order of the working
list (it yields a sublist), and a record is in the filtered view exactly
when it is in the working list and either its numeric timestamp
satisfies `isSameDay` against the selected day, or it has no numeric
timestamp (`Option.all` is `true` on `none`, the pass-through policy, so
such a record is in every day's view). -/
theorem dayFilter_spec (foods : List FoodItem) (d : Int) :
    List.Sublist (dayFilter foods d) foods ∧
    ∀ r : FoodItem, r ∈ dayFilter foods d ↔
      (r ∈ foods ∧ r.timestamp.all (fun ts => isSameDay ts d) = true) := by
  constructor
  · exact List.filter_sublist foods
  · intro r
    rw [dayFilter, List.mem_filter]
    have hp : dayFilterPred d r = r.timestamp.all (fun ts => isSameDay ts d) := by
      cases h : r.timestamp <;> simp [dayFilterPred, h, Option.all]
    rw [hp]

/-! ### Claim C7 -/

/-- C7, confirmed: `addLogEntry` creates exactly one entry, appended to
the log of the given user; the timestamp of the created entry is the
provided one when present and the current time otherwise; and the value
returned is that created record, carrying the store-generated id. -/
theorem addLogEntry_spec (uid : String) (d : LogEntryData) (now : Int)
    (rs : RemoteStore) :
    (addLogEntry uid d now rs).1.timestamp = d.timestamp.getD now ∧
    (addLogEntry uid d now rs).1.id = genId rs.nextId ∧
    (addLogEntry uid d now rs).2.logs =
      rs.logs ++ [(uid, (addLogEntry uid d now rs).1)] ∧
    (addLogEntry uid d now rs).2.nextId = rs.nextId + 1 ∧
    (addLogEntry uid d now rs).2.logs.length = rs.logs.length + 1 := by
  refine ⟨rfl, rfl, rfl, rfl, ?_⟩
  simp [addLogEntry]

/-! ### Claim C8 -/

/-- C8, confirmed: `migrateLocalToFirestore` removes only keys marked
during the loop, and every marked key carries the `foodLog-` prefix, so
the binding of any key without that prefix — `macroGoals` and
`pendingAnonUid` in particular — is unchanged in the local store after
migration, for every starting state. -/
theorem migrate_frame_non_foodLog_keys (uid : String) (wm : Option String)
    (ls : LocalStore) (rs : RemoteStore) (now : Int) (failAt : Nat → Bool)
    (k : String) (h : strStartsWith k "foodLog-" = false) :
    getItem k (migrateLocalToFirestore uid wm ls rs now failAt).localStore =
      getItem k ls := by
  by_cases h1 : uid = ""
  · simp [migrateLocalToFirestore, h1]
  · by_cases h2 : wm = some uid
    · simp [migrateLocalToFirestore, h1, h2]
    · have hnotin : k ∉ (migrateLoop uid ((getLogEntries uid rs).map keyOfRemote)
          now failAt ls rs 0).keysToRemove := by
        intro hmem
        have hpref := migrateLoop_keys_prefixed uid _ now failAt ls rs 0 k hmem
        rw [h] at hpref
        exact Bool.false_ne_true hpref
      simp only [migrateLocalToFirestore]
      rw [if_neg h1, if_neg h2]
      exact getItem_foldl_removeItem _ _ hnotin

/-- Witness for the C8 theorem: the `macroGoals` binding of a store also
holding the pending marker and one day bucket survives a completed
migration unchanged. -/
theorem migrate_frame_non_foodLog_keys_witness :
    strStartsWith "macroGoals" "foodLog-" = false ∧
    getItem "macroGoals"
        (migrateLocalToFirestore "u1" none lsMixed rsEmpty 777 noFail).localStore =
      getItem "macroGoals" lsMixed :=
  ⟨by decide,
   migrate_frame_non_foodLog_keys "u1" none lsMixed rsEmpty 777 noFail
     "macroGoals" (by decide)⟩

/-! ### Claim C9 -/

/-- C9 counterexample. The claim states that a missing or non-numeric
stored timestamp is replaced by the current time. A store timestamp
object (non-numeric) holding 5000 is instead converted via `toMillis`:
with current time 9999 the normalized timestamp is 5000, not 9999. -/
theorem normalizeTimestamp_tsObj_cex :
    (normalizeDoc 9999 "d1" docTea).timestamp = 5000 ∧
    (normalizeDoc 9999 "d1" docTea).timestamp ≠ 9999 := by
  decide

/-- C9 amended: every record delivered by the read normalization shared
by `getLogEntries` and `subscribeToLogEntries` is fully typed — name and
portion are strings defaulting to the empty string, the four macro
fields are numbers defaulting to 0, the id is the document id, and the
timestamp is always a number: a stored number is kept unless it is 0, a
store timestamp object is converted to its millisecond value, and a
missing, zero, or string-valued timestamp is replaced by the current
time. -/
theorem normalizeDoc_spec (now : Int) (docId : String) (d : StoredDoc) :
    (normalizeDoc now docId d).id = docId ∧
    (normalizeDoc now docId d).name = d.name.getD "" ∧
    (normalizeDoc now docId d).calories = d.calories.getD 0 ∧
    (normalizeDoc now docId d).protein = d.protein.getD 0 ∧
    (normalizeDoc now docId d).carbs = d.carbs.getD 0 ∧
    (normalizeDoc now docId d).fat = d.fat.getD 0 ∧
    (normalizeDoc now docId d).portion = d.portion.getD "" ∧
    (∀ n : Int, d.timestamp = StoredVal.num n →
        (normalizeDoc now docId d).timestamp = if n = 0 then now else n) ∧
    (∀ m : Int, d.timestamp = StoredVal.tsObj m →
        (normalizeDoc now docId d).timestamp = m) ∧
    (d.timestamp = StoredVal.missing → (normalizeDoc now docId d).timestamp = now) ∧
    (∀ s : String, d.timestamp = StoredVal.str s →
        (normalizeDoc now docId d).timestamp = now) := by
  refine ⟨rfl, ?_, ?_, ?_, ?_, ?_, ?_, ?_, ?_, ?_, ?_⟩
  · cases h : d.name <;> simp [normalizeDoc, h]
  · rcases h : d.calories with _ | n
    · simp [normalizeDoc, h]
    · by_cases hn : n = 0 <;> simp [normalizeDoc, h, hn]
  · rcases h : d.protein with _ | n
    · simp [normalizeDoc, h]
    · by_cases hn : n = 0 <;> simp [normalizeDoc, h, hn]
  · rcases h : d.carbs with _ | n
    · simp [normalizeDoc, h]
    · by_cases hn : n = 0 <;> simp [normalizeDoc, h, hn]
  · rcases h : d.fat with _ | n
    · simp [normalizeDoc, h]
    · by_cases hn : n = 0 <;> simp [normalizeDoc, h, hn]
  · cases h : d.portion <;> simp [normalizeDoc, h]
  · intro n hts
    simp [normalizeDoc, normalizeTimestamp, hts]
  · intro m hts
    simp [normalizeDoc, normalizeTimestamp, hts]
  · intro hts
    simp [normalizeDoc, normalizeTimestamp, hts]
  · intro s hts
    simp [normalizeDoc, normalizeTimestamp, hts]

/-- Witness for the C9 amended theorem on a document with a plain
nonzero numeric timestamp. -/
theorem normalizeDoc_spec_witness :
    docOats.timestamp = StoredVal.num 4000 ∧
    (normalizeDoc 9999 "d2" docOats).timestamp =
      if (4000 : Int) = 0 then 9999 else 4000 :=
  ⟨rfl, (normalizeDoc_spec 9999 "d2" docOats).2.2.2.2.2.2.2.1 4000 rfl⟩

/-! ### Claim C10 -/

/-- C10, confirmed: the optimistic update of `handleRemoveFood` is the
working list with exactly the entries whose id equals the given id
removed — membership is characterized by that condition and the result
is a sublist (order and contents of the other entries preserved) — and
when no identity is active, the value persisted at the `foodLog-` key of
the active day is exactly that same filtered list. -/
theorem handleRemoveFood_spec (foods : List FoodItem) (foodId : String)
    (uid : String) (fd : String) (ls : LocalStore) (rs : RemoteStore) :
    (∀ (hasUser : Bool) (r : FoodItem),
        r ∈ (handleRemoveFood foods foodId hasUser uid fd ls rs).foods ↔
          (r ∈ foods ∧ ¬ r.id = foodId)) ∧
    (∀ hasUser : Bool,
        List.Sublist (handleRemoveFood foods foodId hasUser uid fd ls rs).foods foods) ∧
    getItem ("foodLog-" ++ fd)
        (handleRemoveFood foods foodId false uid fd ls rs).localStore =
      some (LocalVal.items (handleRemoveFood foods foodId false uid fd ls rs).foods) := by
  have hfoods : ∀ hasUser : Bool,
      (handleRemoveFood foods foodId hasUser uid fd ls rs).foods =
        foods.filter (fun item => item.id != foodId) := by
    intro hasUser
    cases hasUser <;> rfl
  refine ⟨?_, ?_, ?_⟩
  · intro hasUser r
    rw [hfoods hasUser, List.mem_filter, bne_iff_ne]
  · intro hasUser
    rw [hfoods hasUser]
    exact List.filter_sublist foods
  · exact getItem_setItem_self ("foodLog-" ++ fd) _ ls

end NutriTrack
